import Mathlib

/-!
Verification development for the TransferApp repository.

Part 1 models the ledgered, idempotent transfer engine that the
specification describes (sections 3-5 and 8 of the architecture spec):
accounts, append-only ledger entries, transfers, the idempotency store,
and the `submit` algorithm.  The engine itself is not present in the
repository source, so every definition in this part is modelled from the
specification text.

Part 2 embeds the edge Worker code that is present in the source
(`workers/auth/src/index.js` and the Worker variant embedded in
`setup.md`): the fetch dispatcher, `handleSignup`, `handleLogin`, and the
small response helpers they use.
-/

namespace TransferApp

/-- Modelled from the spec: rejection reasons of the transfer engine
(spec sections 4.3 and 6); the engine itself is missing from the source. -/
inductive RejectReason where
  | InvalidRequest
  | UnknownAccount
  | InsufficientFunds
deriving DecidableEq

/-- Modelled from the spec: transfer status (spec section 3, Transfer). -/
inductive TransferStatus where
  | Pending
  | Committed
  | Rejected
deriving DecidableEq

/-- Modelled from the spec: a LedgerEntry record (spec section 3) —
entry id, account id, signed amount (positive credit / negative debit),
resulting balance after application, owning transfer id, and per-account
sequence number. -/
structure LedgerEntry where
  entryId : Nat
  account : String
  amount : Int
  balanceAfter : Int
  transferId : Nat
  seq : Nat
deriving DecidableEq

/-- Modelled from the spec: a Transfer record (spec section 3). -/
structure Transfer where
  key : String
  source : String
  dest : String
  amount : Int
  status : TransferStatus
  reason : Option RejectReason
  tid : Nat
deriving DecidableEq

/-- Modelled from the spec: result of `submit` (spec section 4.3) —
`Committed(transferId, entries)` or `Rejected(reason)`. -/
inductive TransferResult where
  | Committed (tid : Nat) (entries : List LedgerEntry)
  | Rejected (reason : RejectReason)
deriving DecidableEq

/-- True exactly on `Committed` results. -/
def TransferResult.isCommitted : TransferResult → Bool
  | .Committed _ _ => true
  | .Rejected _ => false

/-- Modelled from the spec: the persisted engine state (spec section 6,
persisted state layout) — accounts table, append-only ledger entries in
commit order, transfer records, idempotency records, and the next fresh
transfer id. -/
structure EngineState where
  accounts : List (String × Int)
  entries : List LedgerEntry
  transfers : List Transfer
  idem : List (String × TransferResult)
  nextTid : Nat
deriving DecidableEq

/-- Balance lookup in the accounts table (first binding wins). -/
def lookupAcct : List (String × Int) → String → Option Int
  | [], _ => none
  | (x, b) :: rest, a => if x = a then some b else lookupAcct rest a

/-- Replace the balance of an existing account (first binding). -/
def setAcct : List (String × Int) → String → Int → List (String × Int)
  | [], _, _ => []
  | (x, v) :: rest, a, b => if x = a then (x, b) :: rest else (x, v) :: setAcct rest a b

/-- Idempotency store lookup (spec section 4.1: key maps to the stored
outcome). -/
def lookupIdem : List (String × TransferResult) → String → Option TransferResult
  | [], _ => none
  | (k, r) :: rest, key => if k = key then some r else lookupIdem rest key

/-- The ledger entries of one account, in commit order. -/
def acctEntries (a : String) (es : List LedgerEntry) : List LedgerEntry :=
  es.filter (fun e => e.account == a)

/-- Number of ledger entries an account owns. -/
def countAcct (a : String) (es : List LedgerEntry) : Nat :=
  (acctEntries a es).length

/-- Running sum of an account's entry amounts (spec section 3 invariant). -/
def entrySum (a : String) (es : List LedgerEntry) : Int :=
  ((acctEntries a es).map LedgerEntry.amount).sum

/-- The ledger entries owned by one transfer id. -/
def tidEntries (tid : Nat) (es : List LedgerEntry) : List LedgerEntry :=
  es.filter (fun e => e.transferId == tid)

/-- Modelled from the spec: `getBalance(accountId) -> integer` or
UnknownAccount (spec sections 4.2 and 6). -/
def getBalance (s : EngineState) (a : String) : Option Int :=
  lookupAcct s.accounts a

/-- The ledger entry created when `amt` is applied to account `a`:
fresh entry id, resulting balance, owning transfer, and the account's
next sequence number (spec section 3, LedgerEntry). -/
def mkEntry (s : EngineState) (a : String) (amt : Int) (tid : Nat) : LedgerEntry :=
  { entryId := s.entries.length
    account := a
    amount := amt
    balanceAfter := (lookupAcct s.accounts a).getD 0 + amt
    transferId := tid
    seq := countAcct a s.entries }

/-- Apply one signed amount to one account: update the balance and append
the corresponding ledger entry. -/
def applyTo (s : EngineState) (a : String) (amt : Int) (tid : Nat) : EngineState :=
  { s with
    accounts := setAcct s.accounts a ((lookupAcct s.accounts a).getD 0 + amt)
    entries := s.entries ++ [mkEntry s a amt tid] }

/-- Modelled from the spec: `applyPair(debit, credit)` (spec section 4.2) —
the sole mutation entry point; checks that both accounts exist (unknown
account is a hard rejection) and that the source has sufficient funds,
then atomically appends the debit and credit entries and updates both
balances; on failure the state is untouched. -/
def applyPair (s : EngineState) (src dst : String) (amt : Int) (tid : Nat) :
    Except RejectReason (EngineState × LedgerEntry × LedgerEntry) :=
  match lookupAcct s.accounts src, lookupAcct s.accounts dst with
  | some bs, some _ =>
      if bs < amt then .error .InsufficientFunds
      else
        .ok (applyTo (applyTo s src (-amt) tid) dst amt tid,
             mkEntry s src (-amt) tid,
             mkEntry (applyTo s src (-amt) tid) dst amt tid)
  | _, _ => .error .UnknownAccount

/-- Modelled from the spec: `submit(idempotencyKey, source, dest, amount)`
(spec section 4.3) — validate, consult the idempotency store (replays
return the stored result verbatim), otherwise apply the pair atomically,
record the transfer and cache the outcome (rejections are cached too). -/
def submit (key src dst : String) (amt : Int) (s : EngineState) :
    TransferResult × EngineState :=
  if amt ≤ 0 ∨ src = dst then
    (.Rejected .InvalidRequest, s)
  else
    match lookupIdem s.idem key with
    | some r => (r, s)
    | none =>
        match applyPair s src dst amt s.nextTid with
        | .ok (s2, e1, e2) =>
            let r := TransferResult.Committed s.nextTid [e1, e2]
            (r, { s2 with
                  transfers := s2.transfers ++
                    [{ key := key, source := src, dest := dst, amount := amt,
                       status := .Committed, reason := none, tid := s.nextTid }],
                  idem := (key, r) :: s2.idem,
                  nextTid := s.nextTid + 1 })
        | .error reason =>
            let r := TransferResult.Rejected reason
            (r, { s with
                  transfers := s.transfers ++
                    [{ key := key, source := src, dest := dst, amount := amt,
                       status := .Rejected, reason := some reason, tid := s.nextTid }],
                  idem := (key, r) :: s.idem,
                  nextTid := s.nextTid + 1 })

/-- Seed ledger entries recording the opening balance of each account,
one per account, so that every balance is the running sum of the
account's entries from the start; the i-th account's funding entry uses
transfer id i and sequence number 0. -/
def seedEntries : List (String × Int) → Nat → List LedgerEntry
  | [], _ => []
  | (a, b) :: rest, i =>
      { entryId := i, account := a, amount := b, balanceAfter := b,
        transferId := i, seq := 0 } :: seedEntries rest (i + 1)

/-- Modelled from the spec: an initial engine state over a given accounts
table, with each opening balance recorded as a funding ledger entry, no
transfers, and an empty idempotency store. -/
def initState (accts : List (String × Int)) : EngineState :=
  { accounts := accts
    entries := seedEntries accts 0
    transfers := []
    idem := []
    nextTid := accts.length }

/-- Modelled from the spec: submitting the same request `n` times in a
row (spec section 8, idempotence), collecting the `n` responses. -/
def submitN : Nat → String → String → String → Int → EngineState →
    List TransferResult × EngineState
  | 0, _, _, _, _, s => ([], s)
  | n + 1, key, src, dst, amt, s =>
      let p := submit key src dst amt s
      let q := submitN n key src dst amt p.2
      (p.1 :: q.1, q.2)

/-- States reachable from a well-formed initial state (distinct account
ids, non-negative opening balances) by submitting transfer requests. -/
inductive Reachable : EngineState → Prop where
  | init (accts : List (String × Int)) :
      (accts.map Prod.fst).Nodup → (∀ p ∈ accts, 0 ≤ p.2) →
      Reachable (initState accts)
  | step (key src dst : String) (amt : Int) (s : EngineState) :
      Reachable s → Reachable (submit key src dst amt s).2

/-! Basic lemmas about the accounts table and the entry filters. -/

theorem lookupAcct_setAcct_self (l : List (String × Int)) (a : String) (b c : Int)
    (h : lookupAcct l a = some c) : lookupAcct (setAcct l a b) a = some b := by
  induction l with
  | nil => simp [lookupAcct] at h
  | cons p rest ih =>
      obtain ⟨x, v⟩ := p
      by_cases hx : x = a
      · simp [lookupAcct, setAcct, hx]
      · simp only [lookupAcct, setAcct, hx, if_false] at h ⊢
        exact ih h

theorem lookupAcct_setAcct_ne (l : List (String × Int)) (a : String) (b : Int)
    (c : String) (h : c ≠ a) : lookupAcct (setAcct l a b) c = lookupAcct l c := by
  induction l with
  | nil => simp [setAcct]
  | cons p rest ih =>
      obtain ⟨x, v⟩ := p
      by_cases hx : x = a
      · subst hx
        have hxc : x ≠ c := fun hh => h hh.symm
        simp [lookupAcct, setAcct, hxc]
      · simp only [lookupAcct, setAcct, hx, if_false]
        by_cases hc : x = c
        · simp [hc]
        · simp [hc, ih]

theorem lookupAcct_mem {l : List (String × Int)} {a : String} {b : Int}
    (h : lookupAcct l a = some b) : (a, b) ∈ l := by
  induction l with
  | nil => simp [lookupAcct] at h
  | cons p rest ih =>
      obtain ⟨x, v⟩ := p
      by_cases hx : x = a
      · subst hx
        simp [lookupAcct] at h
        simp [h]
      · simp only [lookupAcct, hx, if_false] at h
        exact List.mem_cons_of_mem _ (ih h)

theorem lookupAcct_eq_none {l : List (String × Int)} {a : String}
    (h : a ∉ l.map Prod.fst) : lookupAcct l a = none := by
  induction l with
  | nil => rfl
  | cons p rest ih =>
      obtain ⟨x, v⟩ := p
      simp only [List.map_cons, List.mem_cons, not_or] at h
      have hxa : x ≠ a := fun hh => h.1 hh.symm
      simp only [lookupAcct, hxa, if_false]
      exact ih h.2

theorem acctEntries_append (a : String) (es fs : List LedgerEntry) :
    acctEntries a (es ++ fs) = acctEntries a es ++ acctEntries a fs := by
  simp [acctEntries, List.filter_append]

theorem acctEntries_singleton (a : String) (e : LedgerEntry) :
    acctEntries a [e] = if e.account = a then [e] else [] := by
  simp [acctEntries, List.filter_singleton]

theorem countAcct_append_single (a : String) (es : List LedgerEntry) (e : LedgerEntry) :
    countAcct a (es ++ [e]) = countAcct a es + (if e.account = a then 1 else 0) := by
  by_cases h : e.account = a <;>
    simp [countAcct, acctEntries_append, acctEntries_singleton, h]

theorem entrySum_append_single (a : String) (es : List LedgerEntry) (e : LedgerEntry) :
    entrySum a (es ++ [e]) = entrySum a es + (if e.account = a then e.amount else 0) := by
  by_cases h : e.account = a <;>
    simp [entrySum, acctEntries_append, acctEntries_singleton, h]

theorem tidEntries_append (n : Nat) (es fs : List LedgerEntry) :
    tidEntries n (es ++ fs) = tidEntries n es ++ tidEntries n fs := by
  simp [tidEntries, List.filter_append]

theorem tidEntries_singleton (n : Nat) (e : LedgerEntry) :
    tidEntries n [e] = if e.transferId = n then [e] else [] := by
  simp [tidEntries, List.filter_singleton]

theorem tidEntries_eq_nil {n : Nat} {es : List LedgerEntry}
    (h : ∀ e ∈ es, e.transferId ≠ n) : tidEntries n es = [] := by
  induction es with
  | nil => rfl
  | cons e rest ih =>
      have he := h e (List.mem_cons_self e rest)
      simp only [tidEntries, List.filter_cons, beq_iff_eq, he, if_false]
      exact ih fun x hx => h x (List.mem_cons_of_mem _ hx)

theorem lookupIdem_mem {l : List (String × TransferResult)} {key : String}
    {r : TransferResult} (h : lookupIdem l key = some r) : ∃ k, (k, r) ∈ l := by
  induction l with
  | nil => simp [lookupIdem] at h
  | cons p rest ih =>
      obtain ⟨k, v⟩ := p
      by_cases hk : k = key
      · simp only [lookupIdem, hk, if_true, Option.some.injEq] at h
        subst h
        exact ⟨k, List.mem_cons_self _ _⟩
      · simp only [lookupIdem, hk, if_false] at h
        obtain ⟨k', hk'⟩ := ih h
        exact ⟨k', List.mem_cons_of_mem _ hk'⟩

theorem lookupIdem_head (key : String) (r : TransferResult)
    (l : List (String × TransferResult)) : lookupIdem ((key, r) :: l) key = some r := by
  simp [lookupIdem]

/-! Shape lemmas for `applyPair` and `submit`. -/

theorem applyPair_ok_elim {s : EngineState} {src dst : String} {amt : Int} {tid : Nat}
    {x : EngineState × LedgerEntry × LedgerEntry}
    (h : applyPair s src dst amt tid = .ok x) :
    ∃ bs bd, lookupAcct s.accounts src = some bs ∧ lookupAcct s.accounts dst = some bd ∧
      ¬ bs < amt ∧
      x = (applyTo (applyTo s src (-amt) tid) dst amt tid,
           mkEntry s src (-amt) tid, mkEntry (applyTo s src (-amt) tid) dst amt tid) := by
  unfold applyPair at h
  cases hs : lookupAcct s.accounts src with
  | none => rw [hs] at h; simp at h
  | some bs =>
      cases hd : lookupAcct s.accounts dst with
      | none => rw [hs, hd] at h; simp at h
      | some bd =>
          rw [hs, hd] at h
          by_cases hlt : bs < amt
          · simp [hlt] at h
          · simp only [hlt, if_false, Except.ok.injEq] at h
            exact ⟨bs, bd, rfl, rfl, hlt, h.symm⟩

theorem applyPair_error_ne_invalid {s : EngineState} {src dst : String} {amt : Int}
    {tid : Nat} {r : RejectReason}
    (h : applyPair s src dst amt tid = .error r) : r ≠ .InvalidRequest := by
  unfold applyPair at h
  cases hs : lookupAcct s.accounts src with
  | none =>
      rw [hs] at h
      simp only [Except.error.injEq] at h
      subst h; intro hc; cases hc
  | some bs =>
      cases hd : lookupAcct s.accounts dst with
      | none =>
          rw [hs, hd] at h
          simp only [Except.error.injEq] at h
          subst h; intro hc; cases hc
      | some bd =>
          rw [hs, hd] at h
          by_cases hlt : bs < amt
          · simp only [hlt, if_true, Except.error.injEq] at h
            subst h; intro hc; cases hc
          · simp [hlt] at h

theorem submit_invalid {key src dst : String} {amt : Int} {s : EngineState}
    (h : amt ≤ 0 ∨ src = dst) :
    submit key src dst amt s = (.Rejected .InvalidRequest, s) := by
  unfold submit
  rw [if_pos h]

theorem submit_replay {key src dst : String} {amt : Int} {s : EngineState}
    {r : TransferResult} (hv : ¬(amt ≤ 0 ∨ src = dst))
    (h : lookupIdem s.idem key = some r) : submit key src dst amt s = (r, s) := by
  unfold submit
  rw [if_neg hv, h]

theorem submit_fresh_error {key src dst : String} {amt : Int} {s : EngineState}
    {reason : RejectReason} (hv : ¬(amt ≤ 0 ∨ src = dst))
    (hk : lookupIdem s.idem key = none)
    (ha : applyPair s src dst amt s.nextTid = .error reason) :
    submit key src dst amt s =
      (.Rejected reason,
       { s with
         transfers := s.transfers ++
           [{ key := key, source := src, dest := dst, amount := amt,
              status := .Rejected, reason := some reason, tid := s.nextTid }],
         idem := (key, .Rejected reason) :: s.idem,
         nextTid := s.nextTid + 1 }) := by
  unfold submit
  rw [if_neg hv, hk, ha]

theorem submit_fresh_ok {key src dst : String} {amt : Int} {s s2 : EngineState}
    {e1 e2 : LedgerEntry} (hv : ¬(amt ≤ 0 ∨ src = dst))
    (hk : lookupIdem s.idem key = none)
    (ha : applyPair s src dst amt s.nextTid = .ok (s2, e1, e2)) :
    submit key src dst amt s =
      (.Committed s.nextTid [e1, e2],
       { s2 with
         transfers := s2.transfers ++
           [{ key := key, source := src, dest := dst, amount := amt,
              status := .Committed, reason := none, tid := s.nextTid }],
         idem := (key, .Committed s.nextTid [e1, e2]) :: s2.idem,
         nextTid := s.nextTid + 1 }) := by
  unfold submit
  rw [if_neg hv, hk, ha]

/-! Lemmas about the seeded initial state. -/

theorem acctEntries_seed_of_none {accts : List (String × Int)} {a : String}
    (h : lookupAcct accts a = none) (i : Nat) :
    acctEntries a (seedEntries accts i) = [] := by
  induction accts generalizing i with
  | nil => rfl
  | cons p rest ih =>
      obtain ⟨x, v⟩ := p
      by_cases hx : x = a
      · simp [lookupAcct, hx] at h
      · simp only [lookupAcct, hx, if_false] at h
        have htail := ih h (i + 1)
        simp only [acctEntries] at htail
        simp [seedEntries, acctEntries, List.filter_cons, hx, htail]

theorem acctEntries_seed_of_some {accts : List (String × Int)} {a : String} {b : Int}
    (hnd : (accts.map Prod.fst).Nodup) (h : lookupAcct accts a = some b) (i : Nat) :
    ∃ j, acctEntries a (seedEntries accts i) =
      [{ entryId := j, account := a, amount := b, balanceAfter := b,
         transferId := j, seq := 0 }] := by
  induction accts generalizing i with
  | nil => simp [lookupAcct] at h
  | cons p rest ih =>
      obtain ⟨x, v⟩ := p
      simp only [List.map_cons, List.nodup_cons] at hnd
      by_cases hx : x = a
      · subst hx
        simp only [lookupAcct, if_true, Option.some.injEq] at h
        have hnone : lookupAcct rest x = none :=
          lookupAcct_eq_none (by simpa using hnd.1)
        refine ⟨i, ?_⟩
        have htail := acctEntries_seed_of_none hnone (i + 1)
        simp only [acctEntries] at htail
        simp [seedEntries, acctEntries, List.filter_cons, htail, h]
      · simp only [lookupAcct, hx, if_false] at h
        obtain ⟨j, hj⟩ := ih hnd.2 h (i + 1)
        refine ⟨j, ?_⟩
        simp only [acctEntries] at hj
        simp [seedEntries, acctEntries, List.filter_cons, hx, hj]

theorem seedEntries_tid_lt {accts : List (String × Int)} {i : Nat} {e : LedgerEntry}
    (h : e ∈ seedEntries accts i) : e.transferId < i + accts.length := by
  induction accts generalizing i with
  | nil => simp [seedEntries] at h
  | cons p rest ih =>
      obtain ⟨x, v⟩ := p
      simp only [seedEntries, List.mem_cons] at h
      cases h with
      | inl h => subst h; simp
      | inr h =>
          have := ih h
          simp only [List.length_cons]
          omega

/-! The engine invariant: balances are running entry sums and non-negative,
per-account sequence numbers are gap-free, committed transfers own exactly
the balanced debit/credit pair, and the idempotency store never holds a
validation error. -/

structure Inv (s : EngineState) : Prop where
  balSum : ∀ a b, lookupAcct s.accounts a = some b → b = entrySum a s.entries
  balNonneg : ∀ a b, lookupAcct s.accounts a = some b → 0 ≤ b
  seqOk : ∀ a, (acctEntries a s.entries).map LedgerEntry.seq =
    List.range (acctEntries a s.entries).length
  entryTid : ∀ e ∈ s.entries, e.transferId < s.nextTid
  transferTid : ∀ t ∈ s.transfers, t.tid < s.nextTid
  pairOk : ∀ t ∈ s.transfers, t.status = TransferStatus.Committed →
    ∃ e1 e2, tidEntries t.tid s.entries = [e1, e2] ∧
      e1.account = t.source ∧ e1.amount = -t.amount ∧
      e2.account = t.dest ∧ e2.amount = t.amount
  idemOk : ∀ p ∈ s.idem, p.2 ≠ TransferResult.Rejected RejectReason.InvalidRequest

theorem inv_init (accts : List (String × Int)) (hnd : (accts.map Prod.fst).Nodup)
    (hpos : ∀ p ∈ accts, 0 ≤ p.2) : Inv (initState accts) := by
  refine ⟨?_, ?_, ?_, ?_, ?_, ?_, ?_⟩
  · intro a b hb
    obtain ⟨j, hj⟩ := acctEntries_seed_of_some hnd hb 0
    show b = entrySum a (seedEntries accts 0)
    simp [entrySum, hj]
  · intro a b hb
    exact hpos (a, b) (lookupAcct_mem hb)
  · intro a
    show (acctEntries a (seedEntries accts 0)).map LedgerEntry.seq =
      List.range (acctEntries a (seedEntries accts 0)).length
    cases hl : lookupAcct accts a with
    | none => simp [acctEntries_seed_of_none hl 0]
    | some b =>
        obtain ⟨j, hj⟩ := acctEntries_seed_of_some hnd hl 0
        simp [hj, List.range_succ]
  · intro e he
    show e.transferId < accts.length
    simpa using seedEntries_tid_lt he
  · intro t ht
    simp [initState] at ht
  · intro t ht
    simp [initState] at ht
  · intro p hp
    simp [initState] at hp

theorem applyTo_lookup_self (s : EngineState) (a : String) (b amt : Int) (tid : Nat)
    (hb : lookupAcct s.accounts a = some b) :
    lookupAcct (applyTo s a amt tid).accounts a = some (b + amt) := by
  show lookupAcct (setAcct s.accounts a ((lookupAcct s.accounts a).getD 0 + amt)) a = _
  rw [hb]
  exact lookupAcct_setAcct_self s.accounts a (b + amt) b hb

theorem applyTo_lookup_ne (s : EngineState) (a : String) (amt : Int) (tid : Nat)
    (c : String) (hc : c ≠ a) :
    lookupAcct (applyTo s a amt tid).accounts c = lookupAcct s.accounts c :=
  lookupAcct_setAcct_ne s.accounts a _ c hc

theorem applyTo_balSum (s : EngineState) (a : String) (b amt : Int) (tid : Nat)
    (hb : lookupAcct s.accounts a = some b)
    (h : ∀ c x, lookupAcct s.accounts c = some x → x = entrySum c s.entries) :
    ∀ c x, lookupAcct (applyTo s a amt tid).accounts c = some x →
      x = entrySum c (applyTo s a amt tid).entries := by
  intro c x hx
  have hAcc : (applyTo s a amt tid).accounts = setAcct s.accounts a (b + amt) := by
    show setAcct s.accounts a ((lookupAcct s.accounts a).getD 0 + amt) =
      setAcct s.accounts a (b + amt)
    rw [hb]
    rfl
  have hx' : lookupAcct (setAcct s.accounts a (b + amt)) c = some x := by
    rwa [hAcc] at hx
  show x = entrySum c (s.entries ++ [mkEntry s a amt tid])
  rw [entrySum_append_single]
  by_cases hc : c = a
  · subst hc
    rw [lookupAcct_setAcct_self s.accounts c (b + amt) b hb, Option.some.injEq] at hx'
    have hbe := h c b hb
    have hacc : (mkEntry s c amt tid).account = c := rfl
    rw [hacc, if_pos rfl]
    have hamt : (mkEntry s c amt tid).amount = amt := rfl
    rw [hamt]
    omega
  · rw [lookupAcct_setAcct_ne s.accounts a (b + amt) c hc] at hx'
    have hold := h c x hx'
    have hacc : (mkEntry s a amt tid).account = a := rfl
    rw [hacc, if_neg (fun hh => hc hh.symm)]
    omega

theorem applyTo_seqOk (s : EngineState) (a : String) (amt : Int) (tid : Nat)
    (h : ∀ c, (acctEntries c s.entries).map LedgerEntry.seq =
      List.range (acctEntries c s.entries).length) :
    ∀ c, (acctEntries c (applyTo s a amt tid).entries).map LedgerEntry.seq =
      List.range (acctEntries c (applyTo s a amt tid).entries).length := by
  intro c
  show (acctEntries c (s.entries ++ [mkEntry s a amt tid])).map LedgerEntry.seq =
    List.range (acctEntries c (s.entries ++ [mkEntry s a amt tid])).length
  rw [acctEntries_append, acctEntries_singleton]
  by_cases hc : (mkEntry s a amt tid).account = c
  · rw [if_pos hc]
    have hac : a = c := hc
    subst hac
    rw [List.map_append, h a]
    have hseq : [mkEntry s a amt tid].map LedgerEntry.seq =
        [(acctEntries a s.entries).length] := rfl
    rw [hseq, List.length_append]
    simp [List.range_succ]
  · rw [if_neg hc]
    simp [h c]

theorem inv_submit (key src dst : String) (amt : Int) (s : EngineState) (h : Inv s) :
    Inv (submit key src dst amt s).2 := by
  by_cases hv : amt ≤ 0 ∨ src = dst
  · rw [submit_invalid hv]
    exact h
  · have hamt : 0 < amt := by
      rcases not_or.mp hv with ⟨h1, _⟩
      omega
    have hne : src ≠ dst := (not_or.mp hv).2
    cases hk : lookupIdem s.idem key with
    | some r =>
        rw [submit_replay hv hk]
        exact h
    | none =>
        cases ha : applyPair s src dst amt s.nextTid with
        | error reason =>
            rw [submit_fresh_error hv hk ha]
            refine ⟨h.balSum, h.balNonneg, h.seqOk, ?_, ?_, ?_, ?_⟩
            · intro e he
              exact Nat.lt_succ_of_lt (h.entryTid e he)
            · intro t ht
              have ht' : t ∈ s.transfers ++
                  [{ key := key, source := src, dest := dst, amount := amt,
                     status := .Rejected, reason := some reason, tid := s.nextTid }] := ht
              rcases List.mem_append.mp ht' with h1 | h1
              · exact Nat.lt_succ_of_lt (h.transferTid t h1)
              · simp only [List.mem_singleton] at h1
                subst h1
                exact Nat.lt_succ_self _
            · intro t ht hc
              have ht' : t ∈ s.transfers ++
                  [{ key := key, source := src, dest := dst, amount := amt,
                     status := .Rejected, reason := some reason, tid := s.nextTid }] := ht
              rcases List.mem_append.mp ht' with h1 | h1
              · exact h.pairOk t h1 hc
              · simp only [List.mem_singleton] at h1
                subst h1
                simp at hc
            · intro p hp
              have hp' : p ∈ (key, TransferResult.Rejected reason) :: s.idem := hp
              rcases List.mem_cons.mp hp' with h1 | h1
              · subst h1
                intro hc
                simp only [TransferResult.Rejected.injEq] at hc
                exact applyPair_error_ne_invalid ha hc
              · exact h.idemOk p h1
        | ok x =>
            obtain ⟨s2, e1, e2⟩ := x
            rw [submit_fresh_ok hv hk ha]
            obtain ⟨bs, bd, hs, hd, hlt, hx⟩ := applyPair_ok_elim ha
            simp only [Prod.mk.injEq] at hx
            obtain ⟨hs2, he1, he2⟩ := hx
            subst hs2
            subst he1
            subst he2
            have hlkd1 : lookupAcct (applyTo s src (-amt) s.nextTid).accounts dst =
                some bd := by
              rw [applyTo_lookup_ne s src (-amt) s.nextTid dst (Ne.symm hne)]
              exact hd
            refine ⟨?_, ?_, ?_, ?_, ?_, ?_, ?_⟩
            · exact applyTo_balSum _ dst bd amt s.nextTid hlkd1
                (applyTo_balSum s src bs (-amt) s.nextTid hs h.balSum)
            · intro a b hb
              by_cases had : a = dst
              · subst had
                have := applyTo_lookup_self (applyTo s src (-amt) s.nextTid)
                  a bd amt s.nextTid hlkd1
                have hb' : some (bd + amt) = some b := by rw [← this]; exact hb
                simp only [Option.some.injEq] at hb'
                have := h.balNonneg a bd hd
                omega
              · have hb1 : lookupAcct (applyTo s src (-amt) s.nextTid).accounts a =
                    some b := by
                  rw [← applyTo_lookup_ne (applyTo s src (-amt) s.nextTid)
                    dst amt s.nextTid a had]
                  exact hb
                by_cases has : a = src
                · subst has
                  have := applyTo_lookup_self s a bs (-amt) s.nextTid hs
                  rw [this, Option.some.injEq] at hb1
                  omega
                · rw [applyTo_lookup_ne s src (-amt) s.nextTid a has] at hb1
                  exact h.balNonneg a b hb1
            · exact applyTo_seqOk _ dst amt s.nextTid
                (applyTo_seqOk s src (-amt) s.nextTid h.seqOk)
            · intro e he
              have he' : e ∈ (s.entries ++ [mkEntry s src (-amt) s.nextTid]) ++
                  [mkEntry (applyTo s src (-amt) s.nextTid) dst amt s.nextTid] := he
              show e.transferId < s.nextTid + 1
              rcases List.mem_append.mp he' with h1 | h1
              · rcases List.mem_append.mp h1 with h2 | h2
                · exact Nat.lt_succ_of_lt (h.entryTid e h2)
                · simp only [List.mem_singleton] at h2
                  subst h2
                  exact Nat.lt_succ_self _
              · simp only [List.mem_singleton] at h1
                subst h1
                exact Nat.lt_succ_self _
            · intro t ht
              have ht' : t ∈ s.transfers ++
                  [{ key := key, source := src, dest := dst, amount := amt,
                     status := .Committed, reason := none, tid := s.nextTid }] := ht
              show t.tid < s.nextTid + 1
              rcases List.mem_append.mp ht' with h1 | h1
              · exact Nat.lt_succ_of_lt (h.transferTid t h1)
              · simp only [List.mem_singleton] at h1
                subst h1
                exact Nat.lt_succ_self _
            · intro t ht hc
              have ht' : t ∈ s.transfers ++
                  [{ key := key, source := src, dest := dst, amount := amt,
                     status := .Committed, reason := none, tid := s.nextTid }] := ht
              rcases List.mem_append.mp ht' with h1 | h1
              · obtain ⟨f1, f2, hf, hfa, hfm, hga, hgm⟩ := h.pairOk t h1 hc
                have htid := h.transferTid t h1
                refine ⟨f1, f2, ?_, hfa, hfm, hga, hgm⟩
                show tidEntries t.tid
                  ((s.entries ++ [mkEntry s src (-amt) s.nextTid]) ++
                    [mkEntry (applyTo s src (-amt) s.nextTid) dst amt s.nextTid]) =
                  [f1, f2]
                rw [tidEntries_append, tidEntries_append, tidEntries_singleton,
                  tidEntries_singleton]
                have h1ne : (mkEntry s src (-amt) s.nextTid).transferId ≠ t.tid := by
                  show s.nextTid ≠ t.tid
                  omega
                have h2ne : (mkEntry (applyTo s src (-amt) s.nextTid)
                    dst amt s.nextTid).transferId ≠ t.tid := by
                  show s.nextTid ≠ t.tid
                  omega
                rw [if_neg h1ne, if_neg h2ne, hf]
                simp
              · simp only [List.mem_singleton] at h1
                subst h1
                have hnil : tidEntries s.nextTid s.entries = [] :=
                  tidEntries_eq_nil (fun e he => by
                    have := h.entryTid e he
                    omega)
                show ∃ f1 f2,
                  tidEntries s.nextTid
                    ((s.entries ++ [mkEntry s src (-amt) s.nextTid]) ++
                      [mkEntry (applyTo s src (-amt) s.nextTid) dst amt s.nextTid]) =
                    [f1, f2] ∧ f1.account = src ∧ f1.amount = -amt ∧
                    f2.account = dst ∧ f2.amount = amt
                refine ⟨mkEntry s src (-amt) s.nextTid,
                  mkEntry (applyTo s src (-amt) s.nextTid) dst amt s.nextTid,
                  ?_, rfl, rfl, rfl, rfl⟩
                rw [tidEntries_append, tidEntries_append, tidEntries_singleton,
                  tidEntries_singleton]
                have hc1 : (mkEntry s src (-amt) s.nextTid).transferId =
                    s.nextTid := rfl
                have hc2 : (mkEntry (applyTo s src (-amt) s.nextTid)
                    dst amt s.nextTid).transferId = s.nextTid := rfl
                rw [if_pos hc1, if_pos hc2, hnil]
                simp
            · intro p hp
              have hp' : p ∈ (key, TransferResult.Committed s.nextTid
                  [mkEntry s src (-amt) s.nextTid,
                   mkEntry (applyTo s src (-amt) s.nextTid) dst amt s.nextTid]) ::
                  s.idem := hp
              rcases List.mem_cons.mp hp' with h1 | h1
              · subst h1
                simp
              · exact h.idemOk p h1

/-- Every reachable state satisfies the engine invariant. -/
theorem reachable_inv {s : EngineState} (h : Reachable s) : Inv s := by
  induction h with
  | init accts hnd hpos => exact inv_init accts hnd hpos
  | step key src dst amt s _ ih => exact inv_submit key src dst amt s ih

/-! Idempotency: resubmitting a request is a no-op returning the same result. -/

theorem submit_fixpoint (key src dst : String) (amt : Int) (s : EngineState) :
    submit key src dst amt (submit key src dst amt s).2 = submit key src dst amt s := by
  by_cases hv : amt ≤ 0 ∨ src = dst
  · rw [@submit_invalid key src dst amt s hv]
    show submit key src dst amt s = _
    exact submit_invalid hv
  · cases hk : lookupIdem s.idem key with
    | some r =>
        rw [submit_replay hv hk]
        show submit key src dst amt s = _
        exact submit_replay hv hk
    | none =>
        cases ha : applyPair s src dst amt s.nextTid with
        | ok x =>
            obtain ⟨s2, e1, e2⟩ := x
            rw [submit_fresh_ok hv hk ha]
            exact submit_replay hv (lookupIdem_head key _ _)
        | error reason =>
            rw [submit_fresh_error hv hk ha]
            exact submit_replay hv (lookupIdem_head key _ _)

theorem submitN_succ (n : Nat) (key src dst : String) (amt : Int) (s : EngineState) :
    submitN (n + 1) key src dst amt s =
      (List.replicate (n + 1) (submit key src dst amt s).1,
       (submit key src dst amt s).2) := by
  induction n generalizing s with
  | zero => simp [submitN, List.replicate]
  | succ m ih =>
      show ((submit key src dst amt s).1 ::
        (submitN (m + 1) key src dst amt (submit key src dst amt s).2).1,
        (submitN (m + 1) key src dst amt (submit key src dst amt s).2).2) = _
      rw [ih (submit key src dst amt s).2, submit_fixpoint]
      simp [List.replicate_succ]

/-- A transfer larger than the source balance is refused by `applyPair`. -/
theorem applyPair_insufficient {s : EngineState} {src dst : String} {amt : Int}
    {tid : Nat} {bs : Int} (hs : lookupAcct s.accounts src = some bs)
    (hd : (lookupAcct s.accounts dst).isSome) (hlt : bs < amt) :
    applyPair s src dst amt tid = .error .InsufficientFunds := by
  unfold applyPair
  obtain ⟨bd, hbd⟩ := Option.isSome_iff_exists.mp hd
  rw [hs, hbd]
  simp [hlt]

/-- A valid request never produces an InvalidRequest rejection (under the
engine invariant: the idempotency store never caches one). -/
theorem submit_result_not_invalid {key src dst : String} {amt : Int}
    {s : EngineState} (h : Inv s) (hv : ¬(amt ≤ 0 ∨ src = dst)) :
    (submit key src dst amt s).1 ≠ TransferResult.Rejected RejectReason.InvalidRequest := by
  cases hk : lookupIdem s.idem key with
  | some r =>
      rw [submit_replay hv hk]
      obtain ⟨k, hkm⟩ := lookupIdem_mem hk
      exact h.idemOk (k, r) hkm
  | none =>
      cases ha : applyPair s src dst amt s.nextTid with
      | ok x =>
          obtain ⟨s2, e1, e2⟩ := x
          rw [submit_fresh_ok hv hk ha]
          simp
      | error reason =>
          rw [submit_fresh_error hv hk ha]
          intro hc
          simp only [TransferResult.Rejected.injEq] at hc
          exact applyPair_error_ne_invalid ha hc

/-! Part 2: the edge Worker, embedded from `workers/auth/src/index.js` and
from the Worker variant embedded in `setup.md`. -/

/-- An HTTP response as the Worker builds it: status, body, headers. -/
structure WResponse where
  status : Nat
  body : String
  headers : List (String × String)
deriving DecidableEq

/-- The `jsonResponse(obj, status)` helper of the Worker: the serialized
object as body with JSON and no-store headers. -/
def jsonResponse (body : String) (status : Nat) : WResponse :=
  { status := status
    body := body
    headers := [("Content-Type", "application/json"), ("Cache-Control", "no-store")] }

/-- `Headers.set` semantics: replace any existing binding of the key. -/
def setHeader (hd : List (String × String)) (k v : String) : List (String × String) :=
  hd.filter (fun p => p.1 != k) ++ [(k, v)]

/-- The `withCors(response, origin)` helper of `workers/auth/src/index.js`:
a response with the same status and body and the CORS headers set. -/
def withCors (r : WResponse) (origin : String) : WResponse :=
  { status := r.status
    body := r.body
    headers :=
      setHeader (setHeader (setHeader (setHeader r.headers
        "Access-Control-Allow-Origin" origin)
        "Access-Control-Allow-Headers" "Content-Type, Authorization")
        "Access-Control-Allow-Methods" "GET,POST,OPTIONS")
        "Access-Control-Max-Age" "86400" }

/-- Body of the 404 response of the fetch dispatcher. -/
def notFoundBody : String := "\x7b\"message\":\"Not found\"\x7d"

/-- The fetch dispatcher of `workers/auth/src/index.js`.  The three POST
handler results are parameters (their behaviour is modelled separately);
the dispatcher checks OPTIONS preflight, then POST /signup, POST /login,
POST /proxy/echo, GET /healthz, and answers 404 for everything else. -/
def fetchWorker (signupRes loginRes echoRes : WResponse) (origin : String)
    (method path : String) : WResponse :=
  if method = "OPTIONS" then
    withCors { status := 204, body := "", headers := [] } origin
  else if method = "POST" ∧ path = "/signup" then
    withCors signupRes origin
  else if method = "POST" ∧ path = "/login" then
    withCors loginRes origin
  else if method = "POST" ∧ path = "/proxy/echo" then
    withCors echoRes origin
  else if method = "GET" ∧ path = "/healthz" then
    withCors { status := 200, body := "ok", headers := [] } origin
  else
    withCors (jsonResponse notFoundBody 404) origin

/-- A row of the D1 `users` table (migration at the end of
`workers/auth/src/index.js`). -/
structure UserRow where
  id : Nat
  email : String
  password_hash : String
  password_salt : String
deriving DecidableEq

/-- Login request payload; an empty string models a missing/falsy field. -/
structure LoginPayload where
  email : String
  password : String
deriving DecidableEq

/-- The JS `toLowerCase()` on the characters of a string. -/
def lowerStr (s : String) : String := ⟨s.data.map Char.toLower⟩

/-- Body of the fixed 401 response of `handleLogin`. -/
def invalidCredentialsBody : String := "\x7b\"error\":\"Invalid credentials\"\x7d"

/-- `handleLogin` of `workers/auth/src/index.js`: parse JSON, require email
and password, look up the user row by lowercased email (`LIMIT 1`),
compare salted hashes, and answer either the fixed 401 body or 200 with a
signed token.  The SHA-256 hash and the HMAC token signer are abstract
function parameters. -/
def handleLogin (hash : String → String → String)
    (sign : Nat → String → Nat → Nat → String → String) (now : Nat)
    (users : List UserRow) (jwtKey : String) :
    Option LoginPayload → WResponse
  | none => jsonResponse "\x7b\"error\":\"Invalid JSON\"\x7d" 400
  | some p =>
      if p.email = "" ∨ p.password = "" then
        jsonResponse "\x7b\"error\":\"email and password are required\"\x7d" 400
      else
        match users.find? (fun u => u.email == lowerStr p.email) with
        | none => jsonResponse invalidCredentialsBody 401
        | some row =>
            if hash p.password row.password_salt ≠ row.password_hash then
              jsonResponse invalidCredentialsBody 401
            else
              jsonResponse
                ("\x7b\"token\":\"" ++
                  sign row.id (lowerStr p.email) now (now + 3600) jwtKey ++
                  "\",\"expiresInSeconds\":3600\x7d") 200

/-- Signup request payload; an empty string models a missing/falsy field. -/
structure SignupPayload where
  email : String
  password : String
  signupSecret : String
deriving DecidableEq

/-- The row `handleSignup` binds into its INSERT statement. -/
structure UserInsert where
  email : String
  password_hash : String
  password_salt : String
  created_at : String
deriving DecidableEq

/-- Outcome of the D1 insert: success, UNIQUE violation, or another error. -/
inductive InsertOutcome where
  | ok
  | uniqueViolation
  | otherError
deriving DecidableEq

/-- `handleSignup` of `workers/auth/src/index.js`: parse JSON, require the
three fields, check the signup gate secret, enforce the password length,
hash with a fresh salt (the random UUID with dashes stripped), insert the
user row, and map a UNIQUE violation to 409.  Returns the response
together with the insert it issued (none if no insert was attempted). -/
def handleSignup (hash : String → String → String) (rawUuid now gateSecret : String)
    (db : UserInsert → InsertOutcome) :
    Option SignupPayload → WResponse × Option UserInsert
  | none => (jsonResponse "\x7b\"error\":\"Invalid JSON\"\x7d" 400, none)
  | some p =>
      if p.email = "" ∨ p.password = "" ∨ p.signupSecret = "" then
        (jsonResponse
          "\x7b\"error\":\"email, password, and signupSecret are required\"\x7d" 400,
         none)
      else if p.signupSecret ≠ gateSecret then
        (jsonResponse "\x7b\"error\":\"Invalid signup secret\"\x7d" 401, none)
      else if p.password.length < 8 then
        (jsonResponse "\x7b\"error\":\"Password must be at least 8 characters\"\x7d" 400,
         none)
      else
        let salt := rawUuid.replace "-" ""
        let ins : UserInsert :=
          { email := lowerStr p.email, password_hash := hash p.password salt,
            password_salt := salt, created_at := now }
        match db ins with
        | .uniqueViolation =>
            (jsonResponse "\x7b\"error\":\"Email already registered\"\x7d" 409, some ins)
        | .otherError =>
            (jsonResponse "\x7b\"error\":\"Unexpected error\"\x7d" 500, some ins)
        | .ok =>
            (jsonResponse "\x7b\"message\":\"Account created\"\x7d" 201, some ins)

/-- `handleSignup` of the Worker variant embedded in `setup.md` (lines
109-141 there), translated separately from that source text; it performs
the same validation chain, salting, hashing and insert mapping. -/
def handleSignupSetup (hash : String → String → String)
    (rawUuid now gateSecret : String)
    (db : UserInsert → InsertOutcome) :
    Option SignupPayload → WResponse × Option UserInsert
  | none => (jsonResponse "\x7b\"error\":\"Invalid JSON\"\x7d" 400, none)
  | some p =>
      if p.email = "" ∨ p.password = "" ∨ p.signupSecret = "" then
        (jsonResponse
          "\x7b\"error\":\"email, password, and signupSecret are required\"\x7d" 400,
         none)
      else if p.signupSecret ≠ gateSecret then
        (jsonResponse "\x7b\"error\":\"Invalid signup secret\"\x7d" 401, none)
      else if p.password.length < 8 then
        (jsonResponse "\x7b\"error\":\"Password must be at least 8 characters\"\x7d" 400,
         none)
      else
        let salt := rawUuid.replace "-" ""
        let ins : UserInsert :=
          { email := lowerStr p.email, password_hash := hash p.password salt,
            password_salt := salt, created_at := now }
        match db ins with
        | .uniqueViolation =>
            (jsonResponse "\x7b\"error\":\"Email already registered\"\x7d" 409, some ins)
        | .otherError =>
            (jsonResponse "\x7b\"error\":\"Unexpected error\"\x7d" 500, some ins)
        | .ok =>
            (jsonResponse "\x7b\"message\":\"Account created\"\x7d" 201, some ins)

/-! The claim theorems. -/

/-- C1: in every reachable engine state, every transfer in status Committed
owns exactly two ledger entries — a debit on the source account and a
credit on the destination account — and the sum of their amounts is
exactly 0. -/
theorem committed_transfer_conservation (s : EngineState) (h : Reachable s)
    (t : Transfer) (ht : t ∈ s.transfers)
    (hc : t.status = TransferStatus.Committed) :
    ∃ e1 e2, tidEntries t.tid s.entries = [e1, e2] ∧
      e1.account = t.source ∧ e1.amount = -t.amount ∧
      e2.account = t.dest ∧ e2.amount = t.amount ∧
      e1.amount + e2.amount = 0 := by
  obtain ⟨e1, e2, hf, h1, h2, h3, h4⟩ := (reachable_inv h).pairOk t ht hc
  refine ⟨e1, e2, hf, h1, h2, h3, h4, ?_⟩
  rw [h2, h4]
  omega

theorem committed_transfer_conservation_witness :
    ∃ e1 e2,
      tidEntries 2 (submit "k" "X" "Y" 3 (initState [("X", 5), ("Y", 0)])).2.entries =
        [e1, e2] ∧ e1.account = "X" ∧ e1.amount = -3 ∧
      e2.account = "Y" ∧ e2.amount = 3 ∧ e1.amount + e2.amount = 0 :=
  committed_transfer_conservation _
    (Reachable.step "k" "X" "Y" 3 _
      (Reachable.init [("X", 5), ("Y", 0)] (by decide) (by decide)))
    { key := "k", source := "X", dest := "Y", amount := 3,
      status := TransferStatus.Committed, reason := none, tid := 2 }
    (by decide) (by decide)

/-- C2: submitting the same request with a given idempotency key n+1 times
yields identical responses every time (the response list is a replicate of
the first response), the state after n+1 submissions is the state after
the first (exactly one stored outcome, no repeated side effects), and a
resubmission after the first returns the stored result verbatim with the
state untouched. -/
theorem submit_key_idempotent (key src dst : String) (amt : Int)
    (s : EngineState) (n : Nat) :
    (submitN (n + 1) key src dst amt s).1 =
      List.replicate (n + 1) (submit key src dst amt s).1 ∧
    (submitN (n + 1) key src dst amt s).2 = (submit key src dst amt s).2 ∧
    submit key src dst amt (submit key src dst amt s).2 =
      submit key src dst amt s := by
  refine ⟨?_, ?_, submit_fixpoint key src dst amt s⟩
  · rw [submitN_succ]
  · rw [submitN_succ]

/-- C3: in every reachable state every account balance equals the running
sum of that account's entry amounts and is non-negative; a fresh valid
transfer whose amount exceeds the source balance is rejected with
InsufficientFunds and applied to neither the accounts nor the ledger. -/
theorem balance_sum_nonneg_insufficient (s : EngineState) (h : Reachable s) :
    (∀ a b, getBalance s a = some b → b = entrySum a s.entries ∧ 0 ≤ b) ∧
    (∀ key src dst amt bs, ¬(amt ≤ 0 ∨ src = dst) →
      lookupIdem s.idem key = none → getBalance s src = some bs →
      (getBalance s dst).isSome → bs < amt →
      (submit key src dst amt s).1 =
        TransferResult.Rejected RejectReason.InsufficientFunds ∧
      (submit key src dst amt s).2.accounts = s.accounts ∧
      (submit key src dst amt s).2.entries = s.entries) := by
  constructor
  · intro a b hb
    exact ⟨(reachable_inv h).balSum a b hb, (reachable_inv h).balNonneg a b hb⟩
  · intro key src dst amt bs hv hk hs hd hlt
    have ha := @applyPair_insufficient s src dst amt s.nextTid bs hs hd hlt
    rw [submit_fresh_error hv hk ha]
    exact ⟨rfl, rfl, rfl⟩

theorem balance_sum_nonneg_insufficient_witness :
    ((5 : Int) = entrySum "X" (initState [("X", 5), ("Y", 0)]).entries ∧
      (0 : Int) ≤ 5) ∧
    ((submit "k" "X" "Y" 9 (initState [("X", 5), ("Y", 0)])).1 =
        TransferResult.Rejected RejectReason.InsufficientFunds ∧
      (submit "k" "X" "Y" 9 (initState [("X", 5), ("Y", 0)])).2.accounts =
        (initState [("X", 5), ("Y", 0)]).accounts ∧
      (submit "k" "X" "Y" 9 (initState [("X", 5), ("Y", 0)])).2.entries =
        (initState [("X", 5), ("Y", 0)]).entries) :=
  ⟨(balance_sum_nonneg_insufficient (initState [("X", 5), ("Y", 0)])
      (Reachable.init [("X", 5), ("Y", 0)] (by decide) (by decide))).1
      "X" 5 (by decide),
   (balance_sum_nonneg_insufficient (initState [("X", 5), ("Y", 0)])
      (Reachable.init [("X", 5), ("Y", 0)] (by decide) (by decide))).2
      "k" "X" "Y" 9 5 (by decide) (by decide) (by decide) (by decide) (by decide)⟩

/-- C4: from X=1000 and Y=0, submit(key k1, X to Y, 300) commits and leaves
X=700 and Y=300; resubmitting the identical request returns a result
identical to the first and changes no balance. -/
theorem scenario_commit_then_replay :
    (submit "k1" "X" "Y" 300 (initState [("X", 1000), ("Y", 0)])).1.isCommitted =
      true ∧
    getBalance (submit "k1" "X" "Y" 300 (initState [("X", 1000), ("Y", 0)])).2 "X" =
      some 700 ∧
    getBalance (submit "k1" "X" "Y" 300 (initState [("X", 1000), ("Y", 0)])).2 "Y" =
      some 300 ∧
    submit "k1" "X" "Y" 300
        (submit "k1" "X" "Y" 300 (initState [("X", 1000), ("Y", 0)])).2 =
      ((submit "k1" "X" "Y" 300 (initState [("X", 1000), ("Y", 0)])).1,
       (submit "k1" "X" "Y" 300 (initState [("X", 1000), ("Y", 0)])).2) := by
  decide

/-- C5: when applyPair fails, submit appends no ledger entry and changes no
balance — either both entries are appended and both balances updated, or
neither; concretely, from X=100 a 500-unit transfer to Y is rejected with
InsufficientFunds and every balance is unchanged. -/
theorem applyPair_failure_atomic (key src dst : String) (amt : Int)
    (s : EngineState) (r : RejectReason) (hv : ¬(amt ≤ 0 ∨ src = dst))
    (hk : lookupIdem s.idem key = none)
    (ha : applyPair s src dst amt s.nextTid = .error r) :
    (submit key src dst amt s).1 = TransferResult.Rejected r ∧
    (submit key src dst amt s).2.accounts = s.accounts ∧
    (submit key src dst amt s).2.entries = s.entries ∧
    (submit "k2" "X" "Y" 500 (initState [("X", 100), ("Y", 0)])).1 =
      TransferResult.Rejected RejectReason.InsufficientFunds ∧
    getBalance (submit "k2" "X" "Y" 500 (initState [("X", 100), ("Y", 0)])).2 "X" =
      some 100 ∧
    getBalance (submit "k2" "X" "Y" 500 (initState [("X", 100), ("Y", 0)])).2 "Y" =
      some 0 := by
  rw [submit_fresh_error hv hk ha]
  exact ⟨rfl, rfl, rfl, by decide, by decide, by decide⟩

theorem applyPair_failure_atomic_witness :
    (submit "w" "X" "Y" 500 (initState [("X", 100), ("Y", 0)])).1 =
      TransferResult.Rejected RejectReason.InsufficientFunds ∧
    (submit "w" "X" "Y" 500 (initState [("X", 100), ("Y", 0)])).2.accounts =
      (initState [("X", 100), ("Y", 0)]).accounts ∧
    (submit "w" "X" "Y" 500 (initState [("X", 100), ("Y", 0)])).2.entries =
      (initState [("X", 100), ("Y", 0)]).entries ∧
    (submit "k2" "X" "Y" 500 (initState [("X", 100), ("Y", 0)])).1 =
      TransferResult.Rejected RejectReason.InsufficientFunds ∧
    getBalance (submit "k2" "X" "Y" 500 (initState [("X", 100), ("Y", 0)])).2 "X" =
      some 100 ∧
    getBalance (submit "k2" "X" "Y" 500 (initState [("X", 100), ("Y", 0)])).2 "Y" =
      some 0 :=
  applyPair_failure_atomic "w" "X" "Y" 500 (initState [("X", 100), ("Y", 0)])
    RejectReason.InsufficientFunds (by decide) (by decide) (by rfl)

/-- C6: in every reachable state, submit returns Rejected(InvalidRequest)
exactly when the amount is non-positive or source equals destination; in
particular a same-account transfer is rejected with InvalidRequest and the
whole state is unchanged. -/
theorem invalid_request_iff (s : EngineState) (h : Reachable s)
    (key src dst : String) (amt : Int) :
    ((submit key src dst amt s).1 =
        TransferResult.Rejected RejectReason.InvalidRequest ↔
      (amt ≤ 0 ∨ src = dst)) ∧
    (src = dst →
      (submit key src dst amt s).1 =
        TransferResult.Rejected RejectReason.InvalidRequest ∧
      (submit key src dst amt s).2 = s) := by
  constructor
  · constructor
    · intro hr
      by_contra hv
      exact submit_result_not_invalid (reachable_inv h) hv hr
    · intro hv
      rw [submit_invalid hv]
  · intro hsd
    rw [submit_invalid (Or.inr hsd)]
    exact ⟨rfl, rfl⟩

theorem invalid_request_iff_witness :
    (submit "k" "X" "X" 5 (initState [("X", 7)])).1 =
      TransferResult.Rejected RejectReason.InvalidRequest ∧
    (submit "k" "X" "X" 5 (initState [("X", 7)])).2 = initState [("X", 7)] :=
  (invalid_request_iff (initState [("X", 7)])
    (Reachable.init [("X", 7)] (by decide) (by decide)) "k" "X" "X" 5).2 rfl

/-- C7: in every reachable state, the sequence numbers of every account's
ledger entries, taken in commit order, are exactly 0, 1, ..., n-1 — a
strictly increasing sequence with no gaps. -/
theorem sequence_numbers_gap_free (s : EngineState) (h : Reachable s)
    (a : String) :
    (acctEntries a s.entries).map LedgerEntry.seq =
      List.range (acctEntries a s.entries).length :=
  (reachable_inv h).seqOk a

theorem sequence_numbers_gap_free_witness :
    (acctEntries "X"
        (submit "k" "X" "Y" 3 (initState [("X", 5), ("Y", 0)])).2.entries).map
      LedgerEntry.seq =
    List.range (acctEntries "X"
        (submit "k" "X" "Y" 3 (initState [("X", 5), ("Y", 0)])).2.entries).length :=
  sequence_numbers_gap_free _
    (Reachable.step "k" "X" "Y" 3 _
      (Reachable.init [("X", 5), ("Y", 0)] (by decide) (by decide))) "X"

/-- C8: the Worker fetch dispatcher routes POST /signup to the signup
handler and POST /login to the login handler, and any request matching
none of its routes (OPTIONS, signup, login, echo proxy, healthz) receives
the CORS-wrapped 404 Not-found response. -/
theorem fetch_dispatcher_routes (signupRes loginRes echoRes : WResponse)
    (origin m p : String)
    (hO : m ≠ "OPTIONS") (h1 : ¬(m = "POST" ∧ p = "/signup"))
    (h2 : ¬(m = "POST" ∧ p = "/login")) (h3 : ¬(m = "POST" ∧ p = "/proxy/echo"))
    (h4 : ¬(m = "GET" ∧ p = "/healthz")) :
    fetchWorker signupRes loginRes echoRes origin "POST" "/signup" =
      withCors signupRes origin ∧
    fetchWorker signupRes loginRes echoRes origin "POST" "/login" =
      withCors loginRes origin ∧
    fetchWorker signupRes loginRes echoRes origin m p =
      withCors (jsonResponse notFoundBody 404) origin ∧
    (fetchWorker signupRes loginRes echoRes origin m p).status = 404 := by
  refine ⟨?_, ?_, ?_, ?_⟩
  · unfold fetchWorker
    rw [if_neg (by decide), if_pos ⟨rfl, rfl⟩]
  · unfold fetchWorker
    rw [if_neg (by decide), if_neg (by decide), if_pos ⟨rfl, rfl⟩]
  · unfold fetchWorker
    rw [if_neg hO, if_neg h1, if_neg h2, if_neg h3, if_neg h4]
  · unfold fetchWorker
    rw [if_neg hO, if_neg h1, if_neg h2, if_neg h3, if_neg h4]
    rfl

theorem fetch_dispatcher_routes_witness :
    fetchWorker ⟨201, "a", []⟩ ⟨200, "b", []⟩ ⟨200, "c", []⟩ "o" "POST" "/signup" =
      withCors ⟨201, "a", []⟩ "o" ∧
    fetchWorker ⟨201, "a", []⟩ ⟨200, "b", []⟩ ⟨200, "c", []⟩ "o" "POST" "/login" =
      withCors ⟨200, "b", []⟩ "o" ∧
    fetchWorker ⟨201, "a", []⟩ ⟨200, "b", []⟩ ⟨200, "c", []⟩ "o" "DELETE" "/x" =
      withCors (jsonResponse notFoundBody 404) "o" ∧
    (fetchWorker ⟨201, "a", []⟩ ⟨200, "b", []⟩ ⟨200, "c", []⟩ "o" "DELETE" "/x").status =
      404 :=
  fetch_dispatcher_routes ⟨201, "a", []⟩ ⟨200, "b", []⟩ ⟨200, "c", []⟩ "o"
    "DELETE" "/x" (by decide) (by decide) (by decide) (by decide) (by decide)

/-- C9: handleLogin does not reveal whether an email is registered: a login
whose email matches no stored user and a login whose email matches a user
but whose password hash does not match produce identical responses — the
fixed 401 Invalid-credentials response. -/
theorem login_no_account_enumeration (hash : String → String → String)
    (sign : Nat → String → Nat → Nat → String → String) (now : Nat)
    (users1 users2 : List UserRow) (key1 key2 : String)
    (p1 p2 : LoginPayload) (row : UserRow)
    (h1e : p1.email ≠ "") (h1p : p1.password ≠ "")
    (h2e : p2.email ≠ "") (h2p : p2.password ≠ "")
    (hnone : users1.find? (fun u => u.email == lowerStr p1.email) = none)
    (hsome : users2.find? (fun u => u.email == lowerStr p2.email) = some row)
    (hhash : hash p2.password row.password_salt ≠ row.password_hash) :
    handleLogin hash sign now users1 key1 (some p1) =
      handleLogin hash sign now users2 key2 (some p2) ∧
    handleLogin hash sign now users1 key1 (some p1) =
      jsonResponse invalidCredentialsBody 401 := by
  have r1 : handleLogin hash sign now users1 key1 (some p1) =
      jsonResponse invalidCredentialsBody 401 := by
    show (if p1.email = "" ∨ p1.password = "" then _ else _) = _
    rw [if_neg (by simp [h1e, h1p]), hnone]
  have r2 : handleLogin hash sign now users2 key2 (some p2) =
      jsonResponse invalidCredentialsBody 401 := by
    show (if p2.email = "" ∨ p2.password = "" then _ else _) = _
    rw [if_neg (by simp [h2e, h2p]), hsome]
    exact if_pos hhash
  exact ⟨r1.trans r2.symm, r1⟩

theorem login_no_account_enumeration_witness :
    handleLogin (fun _ _ => "H") (fun _ _ _ _ _ => "T") 0 [] "j1"
        (some { email := "a@b", password := "pw" }) =
      handleLogin (fun _ _ => "H") (fun _ _ _ _ _ => "T") 0
        [{ id := 1, email := "c@d", password_hash := "X", password_salt := "s" }]
        "j2" (some { email := "c@d", password := "pw" }) ∧
    handleLogin (fun _ _ => "H") (fun _ _ _ _ _ => "T") 0 [] "j1"
        (some { email := "a@b", password := "pw" }) =
      jsonResponse invalidCredentialsBody 401 :=
  login_no_account_enumeration (fun _ _ => "H") (fun _ _ _ _ _ => "T") 0 []
    [{ id := 1, email := "c@d", password_hash := "X", password_salt := "s" }]
    "j1" "j2" { email := "a@b", password := "pw" }
    { email := "c@d", password := "pw" }
    { id := 1, email := "c@d", password_hash := "X", password_salt := "s" }
    (by decide) (by decide) (by decide) (by decide) (by decide) (by decide)
    (by decide)

/-- C10: the two Worker versions agree on signup: for every payload, random
salt value, timestamp, gate secret and database behaviour, handleSignup of
workers/auth/src/index.js and handleSignup of the Worker variant embedded
in setup.md return the same response and issue the same database insert. -/
theorem handleSignup_variants_agree (hash : String → String → String)
    (rawUuid now gateSecret : String) (db : UserInsert → InsertOutcome)
    (payload : Option SignupPayload) :
    handleSignup hash rawUuid now gateSecret db payload =
      handleSignupSetup hash rawUuid now gateSecret db payload := rfl

end TransferApp
